import Mathlib

/-!
Verification of the heterogeneous result-normalization engine of the
benefits360 backend (`src/benefits360/backend/router.py`).

The embedding models the decision logic of `search_people` (the
multi-strategy result-item decoder, lines 101-236, and the column-name
resolution, lines 87-98) and of `get_person_profile` (the two-source
profile lookup with primary/fallback schema translation, lines 252-437).

Python scalars are modelled by `Scalar`; Python dicts by association
lists with first-match lookup and replace-or-append assignment, which is
exactly the observable behaviour of `d[k] = v` on a `dict`.  Result items
are modelled by `Item`, a closed set of the representational variants the
decoder probes for; each constructor corresponds to one family of Python
values, and the decode function specializes the source's strategy chain
to each constructor (a plain `dict` or `list` has none of the probed
attributes, so the attribute-probing strategies are no-ops on it).
-/

namespace Benefits360

/-- A Python scalar value as it appears in backend rows: string, int,
float (modelled as a rational), bool, or `None`.  -/
inductive Scalar where
  | str (s : String)
  | int (n : Int)
  | float (q : Rat)
  | bool (b : Bool)
  | null
  deriving DecidableEq, Repr

/-- `isinstance(value, (int, float))`, the numeric test used by the
trailing-score rule at router.py line 191.  In Python `bool` is a
subclass of `int`, so booleans count as numeric. -/
def Scalar.isNumeric : Scalar → Bool
  | .int _ => true
  | .float _ => true
  | .bool _ => true
  | _ => false

/-- `float(value)` as applied at router.py line 194; only ever reached on
values satisfying `isNumeric` (other values are returned unchanged, an
unreachable default). -/
def pyFloat : Scalar → Scalar
  | .int n => .float (n : Rat)
  | .float q => .float q
  | .bool b => .float (if b then 1 else 0)
  | s => s

/-- A Python `dict` with string keys, as an association list in insertion
order. -/
abbrev Dict := List (String × Scalar)

/-- `d[k] = v` on a Python dict: replace the value of an existing key in
place, otherwise append the new entry. -/
def dictInsert : Dict → String → Scalar → Dict
  | [], k, v => [(k, v)]
  | (k', v') :: rest, k, v =>
      if k' = k then (k', v) :: rest else (k', v') :: dictInsert rest k v

/-- `d.get(k)` / `d[k]`: first entry with the given key. -/
def dictGet : Dict → String → Option Scalar
  | [], _ => none
  | (k', v) :: rest, k => if k' = k then some v else dictGet rest k

/-- `k in d` on a Python dict. -/
def hasKey (d : Dict) (k : String) : Bool :=
  d.any fun p => p.1 == k

/-- `k.startswith("_")` as used throughout the decoder: whether the
first character is an underscore.  (`String.startsWith` itself does not
reduce definitionally, so the one-character prefix test is spelled out.) -/
def startsUnderscore (s : String) : Bool :=
  match s.data with
  | [] => false
  | c :: _ => c == '_'

/-- The value of a `document` or `row` attribute (router.py lines
113-126): either a plain dict, or an object whose `__dict__` is
flattened. -/
inductive DocVal where
  | dict (entries : Dict)
  | objDict (entries : Dict)
  deriving DecidableEq, Repr

/-- Python truthiness of a `document`/`row` attribute value: an empty
dict is falsy, a generic object is truthy. -/
def DocVal.truthy : DocVal → Bool
  | .dict d => !d.isEmpty
  | .objDict _ => true

/-- One element of a `fields` / `data_array` attribute (router.py lines
133-137, 141-145): an object with `name`/`value` attributes, a mapping
with `"name"` and `"value"` keys, or anything else (skipped). -/
inductive FieldEntry where
  | nv (name : String) (value : Scalar)
  | dictNV (name : String) (value : Scalar)
  | other
  deriving DecidableEq, Repr

/-- The value of a `fields` attribute (router.py lines 129-137): a dict,
or an iterable of field entries (modelled as a list). -/
inductive FieldsVal where
  | dict (entries : Dict)
  | iter (fields : List FieldEntry)
  deriving DecidableEq, Repr

/-- The value of a `values` attribute (router.py lines 148-166): a
list/tuple of scalars, or some other truthy value (e.g. a bound method),
which fails both `isinstance` checks and contributes nothing. -/
inductive ValuesVal where
  | list (vals : List Scalar)
  | nonList
  deriving DecidableEq, Repr

/-- The value of a `data` attribute (router.py lines 169-176): a dict
(used verbatim), or some other non-dict non-string value, for which no
branch fires.  (A JSON-string `data` attribute is outside this model.) -/
inductive DataVal where
  | dict (entries : Dict)
  | other
  deriving DecidableEq, Repr

/-- One attribute surfaced by `dir(item)` for the last-resort strategy
(router.py lines 204-216): its name, value and whether it is callable. -/
structure AttrEntry where
  name : String
  value : Scalar
  callable : Bool
  deriving DecidableEq, Repr

/-- The attribute surface of an opaque (non-dict, non-sequence) result
item, mirroring the attributes probed by router.py lines 102-216.
`none` means `hasattr` is false; `dyct` is the item's `__dict__`. -/
structure ObjData where
  score : Option Scalar := none
  document : Option DocVal := none
  row : Option DocVal := none
  fields : Option FieldsVal := none
  data_array : Option (List FieldEntry) := none
  values : Option ValuesVal := none
  data : Option DataVal := none
  dyct : Option Dict := none
  attrs : List AttrEntry := []
  deriving DecidableEq, Repr

/-- One result item, polymorphic over the representations the decoder
tolerates: a keyed mapping, a bare ordered sequence (a list/tuple;
`scoreAttr` models a list subclass carrying a `score` attribute, `none`
for a plain list), or an opaque object. -/
inductive Item where
  | dict (entries : Dict)
  | seq (scoreAttr : Option Scalar) (vals : List Scalar)
  | obj (o : ObjData)
  deriving DecidableEq, Repr

/-- `getattr(item, "score", None)` (router.py line 102): plain dicts and
lists have no `score` attribute; an attribute whose value is `None` is
indistinguishable from an absent one. -/
def pyGetScore : Item → Option Scalar
  | .dict _ => none
  | .seq s _ => match s with
      | some .null => none
      | x => x
  | .obj o => match o.score with
      | some .null => none
      | x => x

/-- Strategy 1/2 (router.py lines 113-126): flatten a truthy
`document`/`row` attribute; a dict is taken verbatim, an object's
`__dict__` is filtered of private names. -/
def tryDoc : Option DocVal → Dict
  | some doc =>
      if doc.truthy then
        match doc with
        | .dict d => d
        | .objDict d => d.filter fun p => !startsUnderscore p.1
      else []
  | none => []

/-- The shared loop body of strategies 3 and 4 (router.py lines 133-137
and 141-145): populate the record from (name, value) field entries. -/
def fieldEntryFold (fields : List FieldEntry) : Dict :=
  fields.foldl
    (fun d f =>
      match f with
      | .nv n v => dictInsert d n v
      | .dictNV n v => dictInsert d n v
      | .other => d)
    []

/-- Strategy 3 (router.py lines 129-137): a truthy `fields` attribute,
either a dict taken verbatim or an iterable of field entries. -/
def tryFields : Option FieldsVal → Dict
  | some (.dict d) => if d.isEmpty then [] else d
  | some (.iter fs) => if fs.isEmpty then [] else fieldEntryFold fs
  | none => []

/-- Strategy 4 (router.py lines 140-145): a truthy `data_array`
attribute holding field entries. -/
def tryDataArray : Option (List FieldEntry) → Dict
  | some fs => if fs.isEmpty then [] else fieldEntryFold fs
  | none => []

/-- The first branch of strategy 5 (router.py lines 149-152): zip the
item's `values` against the resolved column names; indexes beyond the
column list are dropped. -/
def assignPrefixAux (cols : List String) : Nat → List Scalar → Dict → Dict
  | _, [], d => d
  | i, v :: rest, d =>
      match cols.get? i with
      | some c => assignPrefixAux cols (i + 1) rest (dictInsert d c v)
      | none => assignPrefixAux cols (i + 1) rest d

/-- The second branch of strategy 5 (router.py lines 153-166): zip
against the requested columns, with synthetic `field_i` keys for
overflow values. -/
def assignOverflowAux (cols : List String) : Nat → List Scalar → Dict → Dict
  | _, [], d => d
  | i, v :: rest, d =>
      match cols.get? i with
      | some c => assignOverflowAux cols (i + 1) rest (dictInsert d c v)
      | none =>
          assignOverflowAux cols (i + 1) rest
            (dictInsert d ("field_" ++ toString i) v)

/-- Strategy 5 (router.py lines 148-166): decode a truthy list-valued
`values` attribute positionally.  When `columnNames` is non-empty it is
used with overflow dropped; otherwise the requested columns are used
with `field_i` overflow keys.  (The `except NameError` fallback to
`["full_name"]` at lines 157-160 is unreachable in the source because
`columns_to_fetch` is assigned unconditionally at line 58, so it is not
represented: `requestedCols` is always bound.) -/
def tryValues (columnNames requestedCols : List String) : Option ValuesVal → Dict
  | some (.list vals) =>
      if vals.isEmpty then []
      else if !columnNames.isEmpty then assignPrefixAux columnNames 0 vals []
      else assignOverflowAux requestedCols 0 vals []
  | some .nonList => []
  | none => []

/-- Strategy 6 (router.py lines 169-176): a dict-valued `data` attribute
is taken verbatim (no truthiness check on the attribute's value). -/
def tryData : Option DataVal → Dict
  | some (.dict d) => d
  | some .other => []
  | none => []

/-- Strategy 9 (router.py lines 199-201): flatten `__dict__`, dropping
private names, the reserved score keys, and `None` values. -/
def tryObjDict : Option Dict → Dict
  | some d =>
      d.filter fun p =>
        !startsUnderscore p.1 && p.1 != "score" && p.1 != "_score"
          && p.2 != Scalar.null
  | none => []

/-- The last-resort strategy (router.py lines 204-216): walk the public
attributes from `dir(item)`, keeping non-callable, non-`None` values
whose name is not `score` and not private. -/
def tryAttrsAux : List AttrEntry → Dict → Dict
  | [], d => d
  | a :: rest, d =>
      if a.callable = false ∧ a.value ≠ Scalar.null then
        if a.name ≠ "score" ∧ startsUnderscore a.name = false then
          tryAttrsAux rest (dictInsert d a.name a.value)
        else tryAttrsAux rest d
      else tryAttrsAux rest d

/-- `item_attrs` (router.py line 106) followed by the last-resort loop:
`dir(item)` is pre-filtered of private names. -/
def tryAttrs (attrs : List AttrEntry) : Dict :=
  tryAttrsAux (attrs.filter fun a => !(startsUnderscore a.name)) []

/-- Strategy 8 (router.py lines 183-196), the loop body over a bare
list/tuple item: index `i` below the column count binds the column;
otherwise a numeric final element (index `n - 1` of the whole item)
becomes the score if none is set yet; otherwise a `field_i` key is
synthesized. -/
def seqDecodeAux (cols : List String) (n : Nat) :
    Nat → List Scalar → Dict → Option Scalar → Dict × Option Scalar
  | _, [], d, sc => (d, sc)
  | i, v :: rest, d, sc =>
      match cols.get? i with
      | some c => seqDecodeAux cols n (i + 1) rest (dictInsert d c v) sc
      | none =>
          if i = n - 1 ∧ v.isNumeric = true then
            seqDecodeAux cols n (i + 1) rest d
              (if sc = none then some (pyFloat v) else sc)
          else
            seqDecodeAux cols n (i + 1) rest
              (dictInsert d ("field_" ++ toString i) v) sc

/-- Strategy 8 over a whole sequence item. -/
def seqDecode (colsToUse : List String) (vals : List Scalar)
    (sc : Option Scalar) : Dict × Option Scalar :=
  seqDecodeAux colsToUse vals.length 0 vals [] sc

/-- Strategy 7 (router.py lines 179-180): a dict item is copied with the
reserved score keys excluded. -/
def dictDecode (entries : Dict) : Dict :=
  entries.filter fun p => p.1 != "score" && p.1 != "_score"

/-- The strategy chain for an opaque object item: strategies 1-6, then 9
and the attribute fallback, each tried only while the record is still
empty (`if not data and ...`).  Strategies 7 and 8 are `isinstance`
checks that an opaque object fails. -/
def objDecode (columnNames requestedCols : List String) (o : ObjData) : Dict :=
  let d1 := tryDoc o.document
  if d1 ≠ [] then d1 else
  let d2 := tryDoc o.row
  if d2 ≠ [] then d2 else
  let d3 := tryFields o.fields
  if d3 ≠ [] then d3 else
  let d4 := tryDataArray o.data_array
  if d4 ≠ [] then d4 else
  let d5 := tryValues columnNames requestedCols o.values
  if d5 ≠ [] then d5 else
  let d6 := tryData o.data
  if d6 ≠ [] then d6 else
  let d9 := tryObjDict o.dyct
  if d9 ≠ [] then d9 else
  tryAttrs o.attrs

/-- The per-item decoder of `search_people` (router.py lines 101-226):
extract the `score` attribute, then run the strategy chain appropriate
to the item's representation.  A plain dict or list has none of the
probed attributes (a dict's `values` attribute is a bound method and
fails both `isinstance` checks), so only its own strategy applies; for a
sequence the column list is the resolved names, falling back to the
requested ones when empty (line 187). -/
def decodeItem (columnNames requestedCols : List String) :
    Item → Dict × Option Scalar
  | .dict entries => (dictDecode entries, none)
  | .seq s vals =>
      seqDecode (if columnNames.isEmpty then requestedCols else columnNames)
        vals (pyGetScore (.seq s vals))
  | .obj o => (objDecode columnNames requestedCols o, pyGetScore (.obj o))

/-- One serialized search result (`VectorSearchResult` in models.py):
an optional score and the decoded data mapping. -/
structure SearchRecord where
  score : Option Scalar
  data : Dict
  deriving DecidableEq, Repr

/-- The normalization pipeline (router.py lines 101-226): decode each
item of `data_array` in order, appending one record per item. -/
def normalizeResults (columnNames requestedCols : List String)
    (items : List Item) : List SearchRecord :=
  items.map fun it =>
    let r := decodeItem columnNames requestedCols it
    ⟨r.2, r.1⟩

/-- Column-name resolution (router.py lines 87-98): the manifest's
advertised column list when present and non-empty, otherwise the
requested columns. -/
def resolveColumns (advertised : Option (List String))
    (requested : List String) : List String :=
  let columnNames := match advertised with
    | some l => l
    | none => []
  if columnNames.isEmpty then requested else columnNames

/-- The search normalization entry point: resolve the column names, then
normalize the result set against them. -/
def searchNormalize (advertised : Option (List String))
    (requested : List String) (items : List Item) : List SearchRecord :=
  normalizeResults (resolveColumns advertised requested) requested items

/-- One row returned by the SQL statement backend, in the shapes
`get_person_profile` tolerates (router.py lines 389-419): a dict (used
directly), a positional list, an object with an iterable `values`
attribute, an object with a non-iterable `values` attribute (a
`ValueError`), an object flattened via `__dict__`, or an unparseable
format (a `ValueError`). -/
inductive SqlRow where
  | dict (entries : Dict)
  | list (vals : List Scalar)
  | valuesObj (vals : List Scalar)
  | valuesObjBad
  | objDict (entries : Dict)
  | unknown
  deriving DecidableEq, Repr

/-- The `result` object of a statement-execution response: its
`data_array` attribute may be absent (`None`) or a row list. -/
structure ResultData where
  data_array : Option (List SqlRow)
  deriving DecidableEq, Repr

/-- The outcome of one `execute_statement` call: the call itself raises,
or returns a response whose `result` attribute is `None` or a
`ResultData`. -/
inductive ExecOutcome where
  | raises
  | ok (res : Option ResultData)
  deriving DecidableEq, Repr

/-- The primary source's column mapping (router.py lines 378-387):
`people_index` native column order with its short names translated to
the model's field names. -/
def primaryMapping : List (String × String) :=
  [("person_id", "person_id"),
   ("full_name", "full_name"),
   ("birthdate", "birthdate"),
   ("first_name", "first_name"),
   ("last_name", "last_name"),
   ("med_id", "medical_id"),
   ("snap_id", "snap_id"),
   ("case_id", "assistance_id")]

/-- The secondary source's column mapping (router.py lines 366-375):
`matched_people` native column order; its names already match the model
fields. -/
def fallbackMapping : List (String × String) :=
  [("person_id", "person_id"),
   ("medical_id", "medical_id"),
   ("snap_id", "snap_id"),
   ("assistance_id", "assistance_id"),
   ("first_name", "first_name"),
   ("last_name", "last_name"),
   ("birthdate", "birthdate"),
   ("full_name", "full_name")]

/-- The positional branch of row parsing (router.py lines 395-410):
`for i, (db_col, model_col) in enumerate(column_mapping): if i <
len(row): profile_data[model_col] = row[i]`. -/
def mapPositionalAux (vals : List Scalar) :
    Nat → List (String × String) → Dict → Dict
  | _, [], d => d
  | i, m :: rest, d =>
      match vals.get? i with
      | some v => mapPositionalAux vals (i + 1) rest (dictInsert d m.2 v)
      | none => mapPositionalAux vals (i + 1) rest d

/-- Decode one SQL row into `profile_data` (router.py lines 389-419):
a dict row is used directly (no translation), positional shapes are
mapped through the column mapping, `__dict__` objects are flattened, and
malformed rows produce a parse error (`none`). -/
def parseRow (mapping : List (String × String)) : SqlRow → Option Dict
  | .dict entries => some entries
  | .list vals => some (mapPositionalAux vals 0 mapping [])
  | .valuesObj vals => some (mapPositionalAux vals 0 mapping [])
  | .valuesObjBad => none
  | .objDict entries => some (entries.filter fun p => !startsUnderscore p.1)
  | .unknown => none

/-- The canonical profile (`PersonProfileOut` in models.py): all fields
optional. -/
structure PersonProfileOut where
  person_id : Option Scalar := none
  medical_id : Option Scalar := none
  snap_id : Option Scalar := none
  assistance_id : Option Scalar := none
  first_name : Option Scalar := none
  last_name : Option Scalar := none
  birthdate : Option Scalar := none
  full_name : Option Scalar := none
  deriving DecidableEq, Repr

/-- `PersonProfileOut(**profile_data)` (router.py line 428): each model
field takes the matching key's value; unknown keys are ignored
(pydantic's default for extra constructor keywords). -/
def buildProfile (d : Dict) : PersonProfileOut :=
  { person_id := dictGet d "person_id"
    medical_id := dictGet d "medical_id"
    snap_id := dictGet d "snap_id"
    assistance_id := dictGet d "assistance_id"
    first_name := dictGet d "first_name"
    last_name := dictGet d "last_name"
    birthdate := dictGet d "birthdate"
    full_name := dictGet d "full_name" }

/-- The observable outcome of a profile lookup: HTTP 404 (`notFound`),
HTTP 500 (`backendError`), or a decoded profile. -/
inductive LookupOutcome where
  | notFound
  | backendError
  | ok (profile : PersonProfileOut)
  deriving DecidableEq, Repr

/-- A lookup outcome together with whether the secondary source
(`matched_people`) was queried. -/
structure LookupTrace where
  outcome : LookupOutcome
  queriedSecondary : Bool
  deriving DecidableEq, Repr

/-- Decode the first row of whichever source answered: a row-format
error becomes HTTP 500 (router.py lines 420-425). -/
def decodeFinal (mapping : List (String × String)) (row : SqlRow) :
    LookupOutcome :=
  match parseRow mapping row with
  | some d => .ok (buildProfile d)
  | none => .backendError

/-- `get_person_profile` (router.py lines 252-437): query the primary
source; a raised query error becomes HTTP 500 (the outer handler, lines
432-437); an absent `result` object becomes HTTP 404 without a fallback
(lines 294-300); an absent or empty `data_array` triggers the secondary
query (lines 305-344), whose own raise becomes HTTP 500, absent result
object or empty rows become HTTP 404, and a hit is decoded through the
fallback mapping. -/
def getPersonProfile (primary secondary : ExecOutcome) : LookupTrace :=
  match primary with
  | .raises => ⟨.backendError, false⟩
  | .ok none => ⟨.notFound, false⟩
  | .ok (some res) =>
      match res.data_array with
      | some (row :: _) => ⟨decodeFinal primaryMapping row, false⟩
      | _ =>
          match secondary with
          | .raises => ⟨.backendError, true⟩
          | .ok none => ⟨.notFound, true⟩
          | .ok (some res2) =>
              match res2.data_array with
              | some (row :: _) => ⟨decodeFinal fallbackMapping row, true⟩
              | _ => ⟨.notFound, true⟩

/-- Sequential dict assignment, the cumulative effect of a loop of
`d[k] = v` statements. -/
def insertList (d : Dict) (ps : List (String × Scalar)) : Dict :=
  ps.foldl (fun acc p => dictInsert acc p.1 p.2) d

/-! ### Dictionary lemmas -/

theorem dictGet_dictInsert_self (d : Dict) (k : String) (v : Scalar) :
    dictGet (dictInsert d k v) k = some v := by
  induction d with
  | nil => simp [dictInsert, dictGet]
  | cons p rest ih =>
      obtain ⟨a, b⟩ := p
      by_cases h : a = k
      · simp [dictInsert, h, dictGet]
      · simp [dictInsert, h, dictGet, ih]

theorem dictGet_dictInsert_ne (d : Dict) (k k' : String) (v : Scalar)
    (h : k' ≠ k) : dictGet (dictInsert d k v) k' = dictGet d k' := by
  induction d with
  | nil => simp [dictInsert, dictGet, Ne.symm h]
  | cons p rest ih =>
      obtain ⟨a, b⟩ := p
      by_cases ha : a = k
      · subst ha
        simp [dictInsert, dictGet, Ne.symm h]
      · by_cases hb : a = k'
        · simp [dictInsert, ha, dictGet, hb, h]
        · simp [dictInsert, ha, dictGet, hb, ih]

theorem hasKey_eq_isSome (d : Dict) (k : String) :
    hasKey d k = (dictGet d k).isSome := by
  induction d with
  | nil => simp [hasKey, dictGet]
  | cons p rest ih =>
      obtain ⟨a, b⟩ := p
      by_cases h : a = k
      · simp [hasKey, dictGet, h]
      · have hb : (a == k) = false := by simpa using h
        simpa [hasKey, dictGet, h, hb] using ih

theorem mem_dictInsert (d : Dict) (k : String) (v : Scalar)
    (p : String × Scalar) (h : p ∈ dictInsert d k v) : p ∈ d ∨ p = (k, v) := by
  induction d with
  | nil =>
      simp [dictInsert] at h
      right; exact h
  | cons q rest ih =>
      obtain ⟨a, b⟩ := q
      by_cases ha : a = k
      · subst ha
        simp [dictInsert] at h
        rcases h with h | h
        · right; exact h
        · left; exact List.mem_cons_of_mem _ h
      · simp [dictInsert, ha] at h
        rcases h with h | h
        · left; exact h ▸ List.mem_cons_self _ _
        · rcases ih h with h' | h'
          · left; exact List.mem_cons_of_mem _ h'
          · right; exact h'

theorem insertList_cons (d : Dict) (p : String × Scalar)
    (ps : List (String × Scalar)) :
    insertList d (p :: ps) = insertList (dictInsert d p.1 p.2) ps := rfl

theorem dictGet_insertList_not_mem (ps : List (String × Scalar)) :
    ∀ (d : Dict) (k : String), k ∉ ps.map Prod.fst →
      dictGet (insertList d ps) k = dictGet d k := by
  induction ps with
  | nil => intro d k _; rfl
  | cons p rest ih =>
      intro d k h
      rw [List.map_cons] at h
      simp only [List.mem_cons, not_or] at h
      rw [insertList_cons, ih _ _ h.2, dictGet_dictInsert_ne _ _ _ _ h.1]

theorem dictGet_insertList_mem (ps : List (String × Scalar)) :
    ∀ (d : Dict) (k : String) (v : Scalar), (ps.map Prod.fst).Nodup →
      (k, v) ∈ ps → dictGet (insertList d ps) k = some v := by
  induction ps with
  | nil => intro d k v _ hm; cases hm
  | cons p rest ih =>
      intro d k v hnd hm
      rw [List.map_cons, List.nodup_cons] at hnd
      rcases List.mem_cons.mp hm with h | h
      · have hp1 : p.1 = k := by rw [← h]
        have hp2 : p.2 = v := by rw [← h]
        rw [insertList_cons, dictGet_insertList_not_mem _ _ _ (hp1 ▸ hnd.1),
          hp1, hp2, dictGet_dictInsert_self]
      · rw [insertList_cons]
        exact ih _ _ _ hnd.2 h

theorem mem_insertList (ps : List (String × Scalar)) :
    ∀ (d : Dict) (p : String × Scalar), p ∈ insertList d ps → p ∈ d ∨ p ∈ ps := by
  induction ps with
  | nil => intro d p h; left; exact h
  | cons q rest ih =>
      intro d p h
      rw [insertList_cons] at h
      rcases ih _ _ h with h' | h'
      · rcases mem_dictInsert _ _ _ _ h' with h'' | h''
        · left; exact h''
        · right
          rw [Prod.mk.eta] at h''
          exact h'' ▸ List.mem_cons_self _ _
      · right; exact List.mem_cons_of_mem _ h'

/-! ### Zip and take lemmas -/

theorem zip_map_fst_take (l₁ : List String) :
    ∀ l₂ : List Scalar, (l₁.zip l₂).map Prod.fst = l₁.take l₂.length := by
  induction l₁ with
  | nil => intro l₂; simp
  | cons a t ih =>
      intro l₂
      cases l₂ with
      | nil => simp
      | cons b s => simp [ih]

theorem zip_get_mem : ∀ (l₁ : List String) (l₂ : List Scalar) (i : Nat)
    (h1 : i < l₁.length) (h2 : i < l₂.length),
    (l₁.get ⟨i, h1⟩, l₂.get ⟨i, h2⟩) ∈ l₁.zip l₂
  | [], _, i, h1, _ => absurd h1 (by simp)
  | _ :: _, [], i, _, h2 => absurd h2 (by simp)
  | a :: t, b :: s, 0, _, _ => List.mem_cons_self _ _
  | a :: t, b :: s, i + 1, h1, h2 =>
      List.mem_cons_of_mem _
        (zip_get_mem t s i (Nat.lt_of_succ_lt_succ h1) (Nat.lt_of_succ_lt_succ h2))

theorem get_not_mem_take (l : List String) (hnd : l.Nodup) :
    ∀ (n i : Nat) (hi : i < l.length), n ≤ i → l.get ⟨i, hi⟩ ∉ l.take n := by
  induction l with
  | nil => intro n i hi; simp at hi
  | cons a t ih =>
      intro n i hi hn
      cases n with
      | zero => simp
      | succ m =>
          cases i with
          | zero => omega
          | succ j =>
              intro hmem
              simp only [List.take_succ_cons, List.mem_cons] at hmem
              rcases hmem with h | h
              · have : a ∈ t := h ▸ List.get_mem t j (Nat.lt_of_succ_lt_succ hi)
                exact (List.nodup_cons.mp hnd).1 this
              · exact ih (List.nodup_cons.mp hnd).2 m j
                  (Nat.lt_of_succ_lt_succ hi) (Nat.le_of_succ_le_succ hn) h

/-! ### Characterization of the positional-sequence strategy -/

theorem seqDecodeAux_prefix (cols : List String) (n : Nat)
    (rest : List Scalar) :
    ∀ (i : Nat) (d : Dict) (sc : Option Scalar),
      i + rest.length ≤ cols.length →
      seqDecodeAux cols n i rest d sc = (insertList d ((cols.drop i).zip rest), sc) := by
  induction rest with
  | nil => intro i d sc _; simp [seqDecodeAux, insertList]
  | cons v rest ih =>
      intro i d sc h
      have hlen : i + (rest.length + 1) ≤ cols.length := by simpa using h
      have hi : i < cols.length := by omega
      have hg : cols.get? i = some (cols.get ⟨i, hi⟩) := List.get?_eq_get hi
      have hd : cols.drop i = cols.get ⟨i, hi⟩ :: cols.drop (i + 1) := by
        rw [List.drop_eq_getElem_cons hi]
        simp [List.get_eq_getElem]
      simp only [seqDecodeAux, hg]
      rw [ih (i + 1) _ sc (by omega), hd, List.zip_cons_cons, insertList_cons]

theorem seqDecodeAux_score_lt (cols : List String) (n : Nat)
    (rest : List Scalar) :
    ∀ (i : Nat) (d : Dict) (sc : Option Scalar), i + rest.length < n →
      (seqDecodeAux cols n i rest d sc).2 = sc := by
  induction rest with
  | nil => intro i d sc _; simp [seqDecodeAux]
  | cons v rest ih =>
      intro i d sc h
      have hlen : i + (rest.length + 1) < n := by simpa using h
      have hne : ¬(i = n - 1 ∧ v.isNumeric = true) := by
        rintro ⟨h1, _⟩; omega
      cases hc : cols.get? i with
      | some c =>
          simp only [seqDecodeAux, hc]
          exact ih (i + 1) _ sc (by omega)
      | none =>
          simp only [seqDecodeAux, hc, if_neg hne]
          exact ih (i + 1) _ sc (by omega)

theorem seqDecodeAux_score_some (cols : List String) (n : Nat)
    (rest : List Scalar) :
    ∀ (i : Nat) (d : Dict) (sc : Option Scalar), sc ≠ none →
      (seqDecodeAux cols n i rest d sc).2 = sc := by
  induction rest with
  | nil => intro i d sc _; simp [seqDecodeAux]
  | cons v rest ih =>
      intro i d sc hsc
      cases hc : cols.get? i with
      | some c =>
          simp only [seqDecodeAux, hc]
          exact ih (i + 1) _ sc hsc
      | none =>
          by_cases hif : i = n - 1 ∧ v.isNumeric = true
          · simp only [seqDecodeAux, hc, if_pos hif, if_neg hsc]
            exact ih (i + 1) _ sc hsc
          · simp only [seqDecodeAux, hc, if_neg hif]
            exact ih (i + 1) _ sc hsc

theorem seqDecodeAux_data_mem (cols : List String) (n : Nat)
    (rest : List Scalar) :
    ∀ (i : Nat) (d : Dict) (sc : Option Scalar) (p : String × Scalar),
      p ∈ (seqDecodeAux cols n i rest d sc).1 → p ∈ d ∨ p.2 ∈ rest := by
  induction rest with
  | nil => intro i d sc p h; left; simpa [seqDecodeAux] using h
  | cons v rest ih =>
      intro i d sc p h
      cases hc : cols.get? i with
      | some c =>
          simp only [seqDecodeAux, hc] at h
          rcases ih (i + 1) _ sc p h with h' | h'
          · rcases mem_dictInsert _ _ _ _ h' with h'' | h''
            · left; exact h''
            · right; rw [h'']; exact List.mem_cons_self _ _
          · right; exact List.mem_cons_of_mem _ h'
      | none =>
          by_cases hif : i = n - 1 ∧ v.isNumeric = true
          · simp only [seqDecodeAux, hc, if_pos hif] at h
            rcases ih (i + 1) _ _ p h with h' | h'
            · left; exact h'
            · right; exact List.mem_cons_of_mem _ h'
          · simp only [seqDecodeAux, hc, if_neg hif] at h
            rcases ih (i + 1) _ sc p h with h' | h'
            · rcases mem_dictInsert _ _ _ _ h' with h'' | h''
              · left; exact h''
              · right; rw [h'']; exact List.mem_cons_self _ _
            · right; exact List.mem_cons_of_mem _ h'

theorem seqDecodeAux_append (cols : List String) (n : Nat)
    (xs : List Scalar) :
    ∀ (ys : List Scalar) (i : Nat) (d : Dict) (sc : Option Scalar),
      seqDecodeAux cols n i (xs ++ ys) d sc =
        seqDecodeAux cols n (i + xs.length) ys
          (seqDecodeAux cols n i xs d sc).1 (seqDecodeAux cols n i xs d sc).2 := by
  induction xs with
  | nil => intro ys i d sc; simp [seqDecodeAux]
  | cons v xs ih =>
      intro ys i d sc
      have harith : i + 1 + xs.length = i + (xs.length + 1) := by omega
      cases hc : cols.get? i with
      | some c =>
          simp only [List.cons_append, seqDecodeAux, hc, List.length_cons, List.append_eq]
          rw [ih ys (i + 1) _ sc, harith]
      | none =>
          by_cases hif : i = n - 1 ∧ v.isNumeric = true
          · simp only [List.cons_append, seqDecodeAux, hc, if_pos hif,
              List.length_cons, List.append_eq]
            rw [ih ys (i + 1) _ _, harith]
          · simp only [List.cons_append, seqDecodeAux, hc, if_neg hif,
              List.length_cons, List.append_eq]
            rw [ih ys (i + 1) _ sc, harith]

/-! ### Further helper lemmas -/

theorem hasKey_filter_false (f : String × Scalar → Bool) (k : String)
    (d : Dict) (hf : ∀ v, f (k, v) = false) :
    hasKey (d.filter f) k = false := by
  induction d with
  | nil => rfl
  | cons p rest ih =>
      obtain ⟨a, b⟩ := p
      by_cases hfa : f (a, b) = true
      · have hne : a ≠ k := by
          intro h
          rw [h, hf b] at hfa
          exact Bool.noConfusion hfa
        rw [List.filter_cons_of_pos hfa]
        simpa [hasKey, hne] using ih
      · rw [List.filter_cons_of_neg hfa]
        exact ih

theorem hasKey_tryAttrsAux (k : String)
    (hk : k = "score" ∨ startsUnderscore k = true) (l : List AttrEntry) :
    ∀ d : Dict, hasKey d k = false → hasKey (tryAttrsAux l d) k = false := by
  induction l with
  | nil => intro d hd; exact hd
  | cons a rest ih =>
      intro d hd
      by_cases h1 : a.callable = false ∧ a.value ≠ Scalar.null
      · by_cases h2 : a.name ≠ "score" ∧ startsUnderscore a.name = false
        · have hne : k ≠ a.name := by
            rcases hk with hk | hk
            · intro h; exact h2.1 (h ▸ hk)
            · intro h
              rw [← h, hk] at h2
              exact Bool.noConfusion h2.2
          simp only [tryAttrsAux, if_pos h1, if_pos h2]
          apply ih
          rw [hasKey_eq_isSome, dictGet_dictInsert_ne _ _ _ _ hne,
            ← hasKey_eq_isSome]
          exact hd
        · simp only [tryAttrsAux, if_pos h1, if_neg h2]
          exact ih d hd
      · simp only [tryAttrsAux, if_neg h1]
        exact ih d hd

theorem field_append_ne_fullname (s : String) :
    ("field_" ++ s) ≠ "full_name" := by
  intro h
  have h2 : ("field_" ++ s).data = "full_name".data := congrArg String.data h
  rw [String.data_append] at h2
  have h3 : "field_".data = ['f', 'i', 'e', 'l', 'd', '_'] := rfl
  have h4 : "full_name".data = ['f', 'u', 'l', 'l', '_', 'n', 'a', 'm', 'e'] := rfl
  rw [h3, h4] at h2
  simp at h2

theorem length_le_dictInsert (d : Dict) (k : String) (v : Scalar) :
    d.length ≤ (dictInsert d k v).length := by
  induction d with
  | nil => simp [dictInsert]
  | cons p rest ih =>
      obtain ⟨a, b⟩ := p
      by_cases h : a = k
      · simp [dictInsert, h]
      · simpa [dictInsert, h] using ih

theorem length_le_assignOverflowAux (cols : List String)
    (rest : List Scalar) :
    ∀ (i : Nat) (d : Dict), d.length ≤ (assignOverflowAux cols i rest d).length := by
  induction rest with
  | nil => intro i d; simp [assignOverflowAux]
  | cons v rest ih =>
      intro i d
      cases hc : cols.get? i with
      | some c =>
          simp only [assignOverflowAux, hc]
          exact le_trans (length_le_dictInsert d c v) (ih (i + 1) _)
      | none =>
          simp only [assignOverflowAux, hc]
          exact le_trans (length_le_dictInsert d _ v) (ih (i + 1) _)

theorem hasKey_assignOverflowAux_fullname (rest : List Scalar) :
    ∀ (i : Nat) (d : Dict), hasKey d "full_name" = false →
      hasKey (assignOverflowAux [] i rest d) "full_name" = false := by
  induction rest with
  | nil => intro i d hd; exact hd
  | cons v rest ih =>
      intro i d hd
      simp only [assignOverflowAux, List.get?_nil]
      apply ih
      rw [hasKey_eq_isSome,
        dictGet_dictInsert_ne _ _ _ _ (Ne.symm (field_append_ne_fullname _)),
        ← hasKey_eq_isSome]
      exact hd

/-! ### Claims -/

/-- C2: normalization returns exactly one record per input item, in the
order received; an item whose decode produces no fields is still emitted
at its rank position (with an empty data mapping) rather than dropped. -/
theorem c2_rank_preservation (cols req : List String)
    (items pre post : List Item) (it : Item) :
    (normalizeResults cols req items).length = items.length
    ∧ normalizeResults cols req (pre ++ it :: post)
        = normalizeResults cols req pre
          ++ ⟨(decodeItem cols req it).2, (decodeItem cols req it).1⟩
            :: normalizeResults cols req post := by
  constructor
  · simp [normalizeResults]
  · simp [normalizeResults]

/-- C3: a primary source returning zero rows (without raising) leads to a
secondary query rather than an immediate failure; a primary source whose
query raises yields `backendError` (HTTP 500, distinct from
`notFound`) and the secondary source is never queried. -/
theorem c3_error_vs_empty (secondary : ExecOutcome) :
    (getPersonProfile (.ok (some ⟨some []⟩)) secondary).queriedSecondary = true
    ∧ getPersonProfile .raises secondary = ⟨.backendError, false⟩
    ∧ (getPersonProfile .raises secondary).outcome ≠ LookupOutcome.notFound := by
  refine ⟨?_, rfl, fun h => LookupOutcome.noConfusion h⟩
  cases secondary with
  | raises => rfl
  | ok o =>
      cases o with
      | none => rfl
      | some r =>
          obtain ⟨da⟩ := r
          cases da with
          | none => rfl
          | some l =>
              cases l with
              | nil => rfl
              | cons a t => rfl

/-- C4: when the primary source returns at least one row the secondary
source is never queried; when both sources return zero rows the lookup
fails with `notFound`. -/
theorem c4_fallback_ordering (row : SqlRow) (rest : List SqlRow)
    (secondary : ExecOutcome) :
    (getPersonProfile (.ok (some ⟨some (row :: rest)⟩)) secondary).queriedSecondary
        = false
    ∧ getPersonProfile (.ok (some ⟨some []⟩)) (.ok (some ⟨some []⟩))
        = ⟨.notFound, true⟩ :=
  ⟨rfl, rfl⟩

/-- C7: a non-empty backend-advertised column list is used verbatim as
the positional decoding order, overriding the requested columns; absent
(or empty) advertised columns leave the requested list in force. -/
theorem c7_column_resolution (c : String) (rest req : List String)
    (items : List Item) :
    resolveColumns (some (c :: rest)) req = c :: rest
    ∧ resolveColumns none req = req
    ∧ resolveColumns (some []) req = req
    ∧ searchNormalize (some (c :: rest)) req items
        = normalizeResults (c :: rest) req items
    ∧ searchNormalize none req items = normalizeResults req req items :=
  ⟨rfl, rfl, rfl, rfl, rfl⟩

theorem ite_ne_nil_self (d : Dict) : (if d ≠ [] then d else []) = d := by
  by_cases h : d = []
  · simp [h]
  · simp [h]

/-- C5 counterexample: strategy 1 (a truthy `document` dict) copies the
mapping verbatim, so the reserved key `score` appears inside the
produced record's data mapping, contrary to the claim that it never
does. -/
theorem c5_reserved_keys_counterexample :
    (decodeItem ["full_name"] ["full_name"]
        (Item.obj { document := some (DocVal.dict
          [("score", Scalar.float (1/2)), ("full_name", Scalar.str "Jane")]) })).1
      = [("score", Scalar.float (1/2)), ("full_name", Scalar.str "Jane")]
    ∧ hasKey (decodeItem ["full_name"] ["full_name"]
        (Item.obj { document := some (DocVal.dict
          [("score", Scalar.float (1/2)), ("full_name", Scalar.str "Jane")]) })).1
        "score" = true :=
  ⟨rfl, rfl⟩

/-- C5 (amended): the mapping strategy (a dict item) and the
attribute-introspection strategies exclude `score` and `_score` from the
data mapping, and a reserved key carried by a dict item is dropped
rather than moved into the score slot (which stays `none` for a dict
item); the verbatim strategies 1-6 may retain reserved keys. -/
theorem c5_reserved_keys_amended (cols req : List String)
    (entries dy : Dict) (attrs : List AttrEntry) :
    hasKey (decodeItem cols req (Item.dict entries)).1 "score" = false
    ∧ hasKey (decodeItem cols req (Item.dict entries)).1 "_score" = false
    ∧ (decodeItem cols req (Item.dict entries)).2 = none
    ∧ hasKey (decodeItem cols req (Item.obj
        { dyct := some dy, attrs := attrs })).1 "score" = false
    ∧ hasKey (decodeItem cols req (Item.obj
        { dyct := some dy, attrs := attrs })).1 "_score" = false := by
  have hchain : (decodeItem cols req (Item.obj
      { dyct := some dy, attrs := attrs })).1
      = if tryObjDict (some dy) ≠ [] then tryObjDict (some dy)
        else tryAttrs attrs := by
    show objDecode cols req { dyct := some dy, attrs := attrs } = _
    simp [objDecode, tryDoc, tryFields, tryDataArray, tryValues, tryData]
  have hintro : ∀ k, (k = "score" ∨ startsUnderscore k = true) →
      hasKey (decodeItem cols req (Item.obj
        { dyct := some dy, attrs := attrs })).1 k = false := by
    intro k hk
    rw [hchain]
    split
    · refine hasKey_filter_false _ _ _ (fun v => ?_)
      rcases hk with hk | hk
      · subst hk; rfl
      · simp [hk]
    · exact hasKey_tryAttrsAux k hk _ [] rfl
  refine ⟨?_, ?_, rfl, hintro "score" (Or.inl rfl), hintro "_score" (Or.inr rfl)⟩
  · exact hasKey_filter_false _ _ entries (fun v => rfl)
  · exact hasKey_filter_false _ _ entries (fun v => rfl)

/-- C6 counterexample: a primary-source row arriving as a mapping with
the native column name `med_id` is used verbatim with no
native-to-canonical translation, so the produced profile has
`medical_id = none` despite the row carrying `med_id = "M9"`. -/
theorem c6_native_translation_counterexample :
    getPersonProfile
        (.ok (some ⟨some [SqlRow.dict [("med_id", Scalar.str "M9")]]⟩))
        (.ok none)
      = ⟨.ok { person_id := none, medical_id := none, snap_id := none,
               assistance_id := none, first_name := none, last_name := none,
               birthdate := none, full_name := none }, false⟩ := rfl

/-- C6 (amended): native-to-canonical column translation applies to the
positional row shapes (a bare list, or an object with an iterable
`values` attribute): a primary-source positional row binds position 5
(`med_id`) to `medical_id` and position 7 (`case_id`) to
`assistance_id`, and a secondary-source positional row binds its own
column order; a mapping row, by contrast, is passed through verbatim
under its native keys. -/
theorem c6_native_translation_amended
    (a b c d e f g h a2 b2 c2 d2 e2 f2 g2 h2 : Scalar) (sec : ExecOutcome) :
    getPersonProfile
        (.ok (some ⟨some [SqlRow.list [a, b, c, d, e, f, g, h]]⟩)) sec
      = ⟨.ok { person_id := some a, medical_id := some f, snap_id := some g,
               assistance_id := some h, first_name := some d,
               last_name := some e, birthdate := some c,
               full_name := some b }, false⟩
    ∧ getPersonProfile (.ok (some ⟨some []⟩))
        (.ok (some ⟨some [SqlRow.valuesObj [a2, b2, c2, d2, e2, f2, g2, h2]]⟩))
      = ⟨.ok { person_id := some a2, medical_id := some b2, snap_id := some c2,
               assistance_id := some d2, first_name := some e2,
               last_name := some f2, birthdate := some g2,
               full_name := some h2 }, true⟩ :=
  ⟨rfl, rfl⟩

/-- C9 counterexample: with an empty advertised schema and an empty
requested-column list, a positional `values` item decodes under the
synthetic key `field_0`, not under the claimed `["full_name"]` fallback
column list. -/
theorem c9_fallback_columns_counterexample :
    searchNormalize (some []) []
        [Item.obj { values := some (ValuesVal.list [Scalar.str "x"]) }]
      = [⟨none, [("field_0", Scalar.str "x")]⟩]
    ∧ hasKey (decodeItem [] []
        (Item.obj { values := some (ValuesVal.list [Scalar.str "x"]) })).1
        "full_name" = false :=
  ⟨rfl, rfl⟩

/-- C9 (amended): decoding never fails even with both column lists
empty: a positional `values` item is then decoded best-effort under
synthetic `field_i` keys, with no score and never under the key
`full_name`; the source's `["full_name"]` fallback sits behind a
`NameError` guard that cannot fire, because the requested-column
variable is always bound. -/
theorem c9_fallback_columns_amended (vals : List Scalar) :
    (decodeItem [] [] (Item.obj { values := some (ValuesVal.list vals) })).2 = none
    ∧ (decodeItem [] [] (Item.obj { values := some (ValuesVal.list vals) })).1
        = assignOverflowAux [] 0 vals []
    ∧ hasKey (decodeItem [] []
        (Item.obj { values := some (ValuesVal.list vals) })).1
        "full_name" = false := by
  have hchain : (decodeItem [] []
      (Item.obj { values := some (ValuesVal.list vals) })).1
      = tryValues [] [] (some (ValuesVal.list vals)) := by
    show objDecode [] [] { values := some (ValuesVal.list vals) } = _
    simp [objDecode, tryDoc, tryFields, tryDataArray, tryData, tryObjDict,
      tryAttrs, tryAttrsAux, ite_ne_nil_self]
  have hdata : (decodeItem [] []
      (Item.obj { values := some (ValuesVal.list vals) })).1
      = assignOverflowAux [] 0 vals [] := by
    rw [hchain]
    cases vals with
    | nil => rfl
    | cons v rest => rfl
  refine ⟨rfl, hdata, ?_⟩
  rw [hdata]
  exact hasKey_assignOverflowAux_fullname vals 0 [] rfl

/-- C1: positional decoding of a bare scalar sequence against the column
list: a strictly longer sequence whose final element is numeric yields
that element as the score while every data value comes from the
preceding elements; an equal-length sequence yields no score and binds
every element (including the last) to its column; a shorter sequence
fills only the prefix of columns up to its length, leaving the later
columns unbound, with no score. -/
theorem c1_positional_decode (cols req : List String) (vals : List Scalar)
    (hnd : cols.Nodup) (hc : cols ≠ []) :
    (cols.length < vals.length →
      ∀ v : Scalar, vals.getLast? = some v → v.isNumeric = true →
        (decodeItem cols req (Item.seq none vals)).2 = some (pyFloat v)
        ∧ ∀ p ∈ (decodeItem cols req (Item.seq none vals)).1,
            p.2 ∈ vals.dropLast)
    ∧ (vals.length = cols.length →
        (decodeItem cols req (Item.seq none vals)).2 = none
        ∧ ∀ (i : Nat) (hi : i < cols.length),
            dictGet (decodeItem cols req (Item.seq none vals)).1
              (cols.get ⟨i, hi⟩) = vals.get? i)
    ∧ (vals.length < cols.length →
        (decodeItem cols req (Item.seq none vals)).2 = none
        ∧ (∀ (i : Nat) (hi : i < cols.length), i < vals.length →
            dictGet (decodeItem cols req (Item.seq none vals)).1
              (cols.get ⟨i, hi⟩) = vals.get? i)
        ∧ (∀ (i : Nat) (hi : i < cols.length), vals.length ≤ i →
            hasKey (decodeItem cols req (Item.seq none vals)).1
              (cols.get ⟨i, hi⟩) = false)) := by
  have hempty : cols.isEmpty = false := by
    cases cols with
    | nil => exact absurd rfl hc
    | cons c t => rfl
  have hdec : decodeItem cols req (Item.seq none vals)
      = seqDecodeAux cols vals.length 0 vals [] none := by
    have h0 : decodeItem cols req (Item.seq none vals)
        = seqDecode (if cols.isEmpty then req else cols) vals none := rfl
    rw [h0, hempty]
    simp [seqDecode]
  have hpair : ∀ _ : vals.length ≤ cols.length,
      seqDecodeAux cols vals.length 0 vals [] none
        = (insertList [] (cols.zip vals), none) := by
    intro hle
    have h1 := seqDecodeAux_prefix cols vals.length vals 0 [] none
      (by simpa using hle)
    rwa [List.drop_zero] at h1
  have hlook : vals.length ≤ cols.length →
      ∀ (i : Nat) (hi : i < cols.length) (hv : i < vals.length),
        dictGet (insertList [] (cols.zip vals)) (cols.get ⟨i, hi⟩)
          = vals.get? i := by
    intro hle i hi hv
    have hkeys : ((cols.zip vals).map Prod.fst).Nodup := by
      rw [zip_map_fst_take]
      exact hnd.sublist (List.take_sublist _ _)
    have hmem : (cols.get ⟨i, hi⟩, vals.get ⟨i, hv⟩) ∈ cols.zip vals :=
      zip_get_mem cols vals i hi hv
    rw [dictGet_insertList_mem _ _ _ _ hkeys hmem, List.get?_eq_get hv]
  refine ⟨?_, ?_, ?_⟩
  · -- longer sequence with numeric final element
    intro hlong v hlast hnum
    have hne2 : vals ≠ [] := by
      intro hv
      rw [hv] at hlong
      simp at hlong
    have hv2 : vals.getLast hne2 = v := by
      have h3 := List.getLast?_eq_getLast vals hne2
      rw [h3] at hlast
      exact Option.some.inj hlast
    have hsplit : vals.dropLast ++ [v] = vals := by
      rw [← hv2]
      exact List.dropLast_append_getLast hne2
    have hlen : vals.dropLast.length = vals.length - 1 := List.length_dropLast vals
    obtain ⟨D, SC, hDSC⟩ : ∃ D SC,
        seqDecodeAux cols vals.length 0 vals.dropLast [] none = (D, SC) :=
      ⟨_, _, rfl⟩
    have hSC : SC = none := by
      have h4 := seqDecodeAux_score_lt cols vals.length vals.dropLast 0 [] none
        (by omega)
      rw [hDSC] at h4
      exact h4
    have hgetnone : cols.get? vals.dropLast.length = none :=
      List.get?_eq_none.mpr (by omega)
    have hcond : vals.dropLast.length = vals.length - 1 ∧ v.isNumeric = true :=
      ⟨by omega, hnum⟩
    have hfinal : seqDecodeAux cols vals.length vals.dropLast.length [v] D none
        = (D, some (pyFloat v)) := by
      simp only [seqDecodeAux, hgetnone]
      rw [if_pos hcond]
      simp
    have happ := seqDecodeAux_append cols vals.length vals.dropLast [v] 0 [] none
    rw [hsplit, hDSC, hSC] at happ
    simp only [Nat.zero_add] at happ
    rw [hfinal] at happ
    constructor
    · rw [hdec, happ]
    · intro p hp
      rw [hdec, happ] at hp
      have h5 := seqDecodeAux_data_mem cols vals.length vals.dropLast 0 [] none p
        (by rw [hDSC]; exact hp)
      rcases h5 with h' | h'
      · exact absurd h' (List.not_mem_nil p)
      · exact h'
  · -- equal length
    intro heq
    have hle : vals.length ≤ cols.length := le_of_eq heq
    refine ⟨?_, ?_⟩
    · rw [hdec, hpair hle]
    · intro i hi
      have hv : i < vals.length := by omega
      rw [hdec, hpair hle]
      exact hlook hle i hi hv
  · -- shorter sequence
    intro hlt
    have hle : vals.length ≤ cols.length := le_of_lt hlt
    refine ⟨?_, ?_, ?_⟩
    · rw [hdec, hpair hle]
    · intro i hi hv
      rw [hdec, hpair hle]
      exact hlook hle i hi hv
    · intro i hi hge
      rw [hdec, hpair hle]
      have hnotin : cols.get ⟨i, hi⟩ ∉ (cols.zip vals).map Prod.fst := by
        rw [zip_map_fst_take]
        exact get_not_mem_take cols hnd vals.length i hi hge
      show hasKey (insertList [] (cols.zip vals)) (cols.get ⟨i, hi⟩) = false
      rw [hasKey_eq_isSome, dictGet_insertList_not_mem _ _ _ hnotin]
      rfl

/-- C1 witness: the spec's own scenario — positional item
`["p1", "Jane Doe", 0.87]` against columns `["person_id", "full_name"]`
infers the trailing numeric element as the score. -/
theorem c1_positional_decode_witness :
    (decodeItem ["person_id", "full_name"] ["person_id", "full_name"]
        (Item.seq none [Scalar.str "p1", Scalar.str "Jane Doe",
          Scalar.float (87/100)])).2
      = some (Scalar.float (87/100)) :=
  ((c1_positional_decode ["person_id", "full_name"] ["person_id", "full_name"]
      [Scalar.str "p1", Scalar.str "Jane Doe", Scalar.float (87/100)]
      (by decide) (by decide)).1 (by decide) (Scalar.float (87/100)) rfl
      rfl).1

/-- C8: an explicit `score` attribute takes precedence over
trailing-numeric inference: a sequence item carrying an explicit
non-null score attribute that also qualifies for the trailing-numeric
rule (longer than the columns, numeric final element) returns the
explicit score, never the inferred one. -/
theorem c8_score_precedence (cols req : List String) (vals : List Scalar)
    (s : Scalar) (hs : s ≠ Scalar.null) (hc : cols ≠ [])
    (hlong : cols.length < vals.length) (v : Scalar)
    (hlast : vals.getLast? = some v) (hnum : v.isNumeric = true) :
    (decodeItem cols req (Item.seq (some s) vals)).2 = some s := by
  have hscore : pyGetScore (Item.seq (some s) vals) = some s := by
    cases s with
    | null => exact absurd rfl hs
    | str t => rfl
    | int n => rfl
    | float q => rfl
    | bool b => rfl
  have hempty : cols.isEmpty = false := by
    cases cols with
    | nil => exact absurd rfl hc
    | cons c t => rfl
  have h0 : decodeItem cols req (Item.seq (some s) vals)
      = seqDecode (if cols.isEmpty then req else cols) vals
          (pyGetScore (Item.seq (some s) vals)) := rfl
  rw [h0, hempty, hscore]
  simp only [Bool.false_eq_true, if_false, seqDecode]
  exact seqDecodeAux_score_some cols vals.length vals 0 [] (some s)
    (fun hh => Option.noConfusion hh)

/-- C8 witness: a sequence item with explicit score attribute `9` and a
trailing numeric element `1` beyond the single column returns the
explicit `9`. -/
theorem c8_score_precedence_witness :
    (decodeItem ["person_id"] ["person_id"]
        (Item.seq (some (Scalar.int 9))
          [Scalar.str "p1", Scalar.int 1])).2
      = some (Scalar.int 9) :=
  c8_score_precedence ["person_id"] ["person_id"]
    [Scalar.str "p1", Scalar.int 1] (Scalar.int 9)
    (by decide) (by decide) (by decide) (Scalar.int 1) rfl rfl

/-- C10: a primary response whose `result` object is entirely absent
(`None`) fails immediately with `notFound` (HTTP 404) and the secondary
source is never queried, regardless of what the secondary would have
returned. -/
theorem c10_absent_result_notfound (secondary : ExecOutcome) :
    getPersonProfile (.ok none) secondary = ⟨.notFound, false⟩ := rfl

end Benefits360
